import Mathlib

/-!
Verification of the CHIP-8 virtual-machine core in `chip-8-emu-volai.py`
(class `Chip8Emulator`).  The VM state and every operation the claims touch
are embedded shallowly: Python's `bytearray` cells become `Nat`-valued
functions, `& 0xFF` on non-negative values becomes `% 256`, Python's
`(a - b) & 0xFF` (which may see a negative intermediate) becomes
`((a : Int) - b) % 256` (Int.emod is non-negative for a positive modulus),
and an uncaught Python exception (e.g. `IndexError` from an out-of-range
`bytearray` index) is `none`.  GUI-only state (Tk widgets, wall-clock
timestamps) is outside the model; the scheduler loop body is modelled with
explicit "interval elapsed" flags.
-/

namespace Chip8

/-- VM state: the fields of `Chip8Emulator` that the core mutates.
`memory` models `bytearray(4096)`, `v` models `bytearray(16)`,
`displayBuffer` models the 64*32 list of 0/1 ints (index `x + y*64`),
`keys` models the 16-entry list, and `keyWait` models the `key_wait`
field with `none` for the sentinel `-1`. -/
structure VM where
  memory : Nat → Nat
  v : Nat → Nat
  i : Nat
  pc : Nat
  stack : List Nat
  delayTimer : Nat
  soundTimer : Nat
  displayBuffer : Nat → Nat
  drawFlag : Bool
  keys : Nat → Nat
  keyWait : Option Nat
  running : Bool
  romLoaded : Bool

/-- Pointwise update of a register/array function (Python `arr[k] = val`). -/
def upd (f : Nat → Nat) (k val : Nat) : Nat → Nat :=
  fun j => if j = k then val else f j

/-- `self.v[k] = val` (all values written by the code are already in 0..255). -/
def vset (st : VM) (k val : Nat) : VM :=
  { st with v := upd st.v k val }

/-- `self.memory[a]`: a `bytearray(4096)` read raises `IndexError` out of range. -/
def memRead (st : VM) (a : Nat) : Option Nat :=
  if a < 4096 then some (st.memory a) else none

/-- `self.memory[a] = b`: raises on an out-of-range index or a non-byte value. -/
def memWrite (st : VM) (a b : Nat) : Option VM :=
  if a < 4096 ∧ b < 256 then
    some { st with memory := upd st.memory a b }
  else none

/-- `self.keys[k]`: the list has 16 entries, so `k ≥ 16` raises `IndexError`. -/
def keysRead (st : VM) (k : Nat) : Option Nat :=
  if k < 16 then some (st.keys k) else none

/-- Python `(a - b) & 0xFF`: the difference of two Python ints masked to a
byte, i.e. the mathematical `(a - b) mod 256`. -/
def subByte (a b : Nat) : Nat :=
  (((a : Int) - (b : Int)) % 256).toNat

/-- Opcode field `x = (opcode & 0x0F00) >> 8`. -/
def opX (op : Nat) : Nat := (op &&& 0x0F00) >>> 8

/-- Opcode field `y = (opcode & 0x00F0) >> 4`. -/
def opY (op : Nat) : Nat := (op &&& 0x00F0) >>> 4

/-- Opcode field `n = opcode & 0x000F`. -/
def opN (op : Nat) : Nat := op &&& 0x000F

/-- Opcode field `kk = opcode & 0x00FF`. -/
def opKK (op : Nat) : Nat := op &&& 0x00FF

/-- Opcode field `nnn = opcode & 0x0FFF`. -/
def opNNN (op : Nat) : Nat := op &&& 0x0FFF

/-- One sprite pixel of `Dxyn`: set `VF` if the cell is lit, then XOR it
(`if self.display_buffer[index] == 1: self.v[0xF] = 1` /
`self.display_buffer[index] ^= 1`). -/
def drawPixelXor (st : VM) (idx : Nat) : VM :=
  { st with
    v := upd st.v 15 (if st.displayBuffer idx = 1 then 1 else st.v 15),
    displayBuffer := upd st.displayBuffer idx (st.displayBuffer idx ^^^ 1) }

/-- The body of the inner `for col in range(8)` loop of `Dxyn`: columns
past the right edge are skipped (`continue`), set sprite bits are XORed
in. -/
def colStep (startX pixelY spriteByte col : Nat) (st : VM) : VM :=
  if 64 ≤ startX + col then st
  else if spriteByte &&& (0x80 >>> col) ≠ 0 then
    drawPixelXor st (startX + col + pixelY * 64)
  else st

/-- The inner `for col in range(8)` of `Dxyn`, started at `col` with `count`
iterations left. -/
def drawCols (startX pixelY spriteByte : Nat) : Nat → Nat → VM → VM
  | _, 0, st => st
  | col, count + 1, st =>
    drawCols startX pixelY spriteByte (col + 1) count
      (colStep startX pixelY spriteByte col st)

/-- The body of the outer `for row in range(n)` loop of `Dxyn`, after the
sprite byte has been read: rows past the bottom edge are skipped,
otherwise the 8 columns are scanned. -/
def rowStep (startX startY spriteByte row : Nat) (st : VM) : VM :=
  if 32 ≤ startY + row then st
  else drawCols startX (startY + row) spriteByte 0 8 st

/-- The outer `for row in range(n)` of `Dxyn`, started at `row` with `count`
iterations left: the sprite byte is read from memory (this read can
raise), then the row is drawn. -/
def drawRowsFrom (startX startY iReg : Nat) : Nat → Nat → VM → Option VM
  | _, 0, st => some st
  | row, count + 1, st =>
    match memRead st (iReg + row) with
    | none => none
    | some spriteByte =>
      drawRowsFrom startX startY iReg (row + 1) count
        (rowStep startX startY spriteByte row st)

/-- The whole `Dxyn` branch: `self.v[0xF] = 0`, start corner
`(v[x] % 64, v[y] % 32)` read after the flag reset, the row/column scan,
then `self.draw_flag = True`. -/
def drawOp (x y n : Nat) (st : VM) : Option VM :=
  match drawRowsFrom (upd st.v 15 0 x % 64) (upd st.v 15 0 y % 32) st.i 0 n
      { st with v := upd st.v 15 0 } with
  | none => none
  | some s => some { s with drawFlag := true }

/-- `Fx33` BCD store: three byte writes at `I`, `I+1`, `I+2`. -/
def bcdOp (x : Nat) (st : VM) : Option VM :=
  match memWrite st st.i (st.v x / 100) with
  | none => none
  | some s1 =>
    match memWrite s1 (st.i + 1) (st.v x % 100 / 10) with
    | none => none
    | some s2 => memWrite s2 (st.i + 2) (st.v x % 10)

/-- `Fx55`: `for j in range(x+1): self.memory[self.i + j] = self.v[j]`,
started at `j` with `count` iterations left. -/
def storeRegs (iReg : Nat) : Nat → Nat → VM → Option VM
  | _, 0, st => some st
  | j, count + 1, st =>
    match memWrite st (iReg + j) (st.v j) with
    | none => none
    | some s => storeRegs iReg (j + 1) count s

/-- `Fx65`: `for j in range(x+1): self.v[j] = self.memory[self.i + j]`,
started at `j` with `count` iterations left. -/
def loadRegs (iReg : Nat) : Nat → Nat → VM → Option VM
  | _, 0, st => some st
  | j, count + 1, st =>
    match memRead st (iReg + j) with
    | none => none
    | some b => loadRegs iReg (j + 1) count (vset st j b)

/-- The decode/dispatch part of `_execute_cycle`, applied to the state with
`pc` already advanced by 2.  `rand` injects `random.randint(0, 255)` for
`Cxkk`.  The `if`/`elif` chain mirrors the source order; a chain with no
match falls through doing nothing (`some st`). -/
def execOp (rand op : Nat) (st : VM) : Option VM :=
  if op &&& 0xF000 = 0x0000 then
    if op = 0x00E0 then
      some { st with displayBuffer := fun _ => 0, drawFlag := true }
    else if op = 0x00EE then
      match st.stack.getLast? with
      | none => some st
      | some ret => some { st with pc := ret, stack := st.stack.dropLast }
    else some st
  else if op &&& 0xF000 = 0x1000 then
    some { st with pc := opNNN op }
  else if op &&& 0xF000 = 0x2000 then
    some { st with stack := st.stack ++ [st.pc], pc := opNNN op }
  else if op &&& 0xF000 = 0x3000 then
    some (if st.v (opX op) = opKK op then { st with pc := st.pc + 2 } else st)
  else if op &&& 0xF000 = 0x4000 then
    some (if st.v (opX op) ≠ opKK op then { st with pc := st.pc + 2 } else st)
  else if op &&& 0xF000 = 0x5000 then
    some (if st.v (opX op) = st.v (opY op) then { st with pc := st.pc + 2 } else st)
  else if op &&& 0xF000 = 0x6000 then
    some (vset st (opX op) (opKK op))
  else if op &&& 0xF000 = 0x7000 then
    some (vset st (opX op) ((st.v (opX op) + opKK op) % 256))
  else if op &&& 0xF000 = 0x8000 then
    if op &&& 0x000F = 0x0 then
      some (vset st (opX op) (st.v (opY op)))
    else if op &&& 0x000F = 0x1 then
      some (vset st (opX op) (st.v (opX op) ||| st.v (opY op)))
    else if op &&& 0x000F = 0x2 then
      some (vset st (opX op) (st.v (opX op) &&& st.v (opY op)))
    else if op &&& 0x000F = 0x3 then
      some (vset st (opX op) (st.v (opX op) ^^^ st.v (opY op)))
    else if op &&& 0x000F = 0x4 then
      some (vset (vset st 15 (if 255 < st.v (opX op) + st.v (opY op) then 1 else 0))
        (opX op) ((st.v (opX op) + st.v (opY op)) % 256))
    else if op &&& 0x000F = 0x5 then
      some (vset (vset st 15 (if st.v (opY op) < st.v (opX op) then 1 else 0))
        (opX op)
        (subByte ((vset st 15 (if st.v (opY op) < st.v (opX op) then 1 else 0)).v (opX op))
          ((vset st 15 (if st.v (opY op) < st.v (opX op) then 1 else 0)).v (opY op))))
    else if op &&& 0x000F = 0x6 then
      some (vset (vset st 15 (st.v (opX op) &&& 0x1)) (opX op)
        ((vset st 15 (st.v (opX op) &&& 0x1)).v (opX op) >>> 1))
    else if op &&& 0x000F = 0x7 then
      some (vset (vset st 15 (if st.v (opX op) < st.v (opY op) then 1 else 0))
        (opX op)
        (subByte ((vset st 15 (if st.v (opX op) < st.v (opY op) then 1 else 0)).v (opY op))
          ((vset st 15 (if st.v (opX op) < st.v (opY op) then 1 else 0)).v (opX op))))
    else if op &&& 0x000F = 0xE then
      some (vset (vset st 15 ((st.v (opX op) &&& 0x80) >>> 7)) (opX op)
        (((vset st 15 ((st.v (opX op) &&& 0x80) >>> 7)).v (opX op) <<< 1) % 256))
    else some st
  else if op &&& 0xF000 = 0x9000 then
    some (if st.v (opX op) ≠ st.v (opY op) then { st with pc := st.pc + 2 } else st)
  else if op &&& 0xF000 = 0xA000 then
    some { st with i := opNNN op }
  else if op &&& 0xF000 = 0xB000 then
    some { st with pc := opNNN op + st.v 0 }
  else if op &&& 0xF000 = 0xC000 then
    some (vset st (opX op) ((rand % 256) &&& opKK op))
  else if op &&& 0xF000 = 0xD000 then
    drawOp (opX op) (opY op) (opN op) st
  else if op &&& 0xF000 = 0xE000 then
    if op &&& 0x00FF = 0x9E then
      match keysRead st (st.v (opX op)) with
      | none => none
      | some kv => some (if kv = 1 then { st with pc := st.pc + 2 } else st)
    else if op &&& 0x00FF = 0xA1 then
      match keysRead st (st.v (opX op)) with
      | none => none
      | some kv => some (if kv = 0 then { st with pc := st.pc + 2 } else st)
    else some st
  else if op &&& 0xF000 = 0xF000 then
    if op &&& 0x00FF = 0x07 then
      some (vset st (opX op) st.delayTimer)
    else if op &&& 0x00FF = 0x0A then
      some { st with keyWait := some (opX op), running := false }
    else if op &&& 0x00FF = 0x15 then
      some { st with delayTimer := st.v (opX op) }
    else if op &&& 0x00FF = 0x18 then
      some { st with soundTimer := st.v (opX op) }
    else if op &&& 0x00FF = 0x1E then
      some { st with i := st.i + st.v (opX op) }
    else if op &&& 0x00FF = 0x29 then
      some { st with i := st.v (opX op) * 5 }
    else if op &&& 0x00FF = 0x33 then
      bcdOp (opX op) st
    else if op &&& 0x00FF = 0x55 then
      storeRegs st.i 0 (opX op + 1) st
    else if op &&& 0x00FF = 0x65 then
      loadRegs st.i 0 (opX op + 1) st
    else some st
  else some st

/-- The fetch of `_execute_cycle`:
`opcode = (self.memory[self.pc] << 8) | self.memory[self.pc + 1]`. -/
def fetch (st : VM) : Option Nat :=
  match memRead st st.pc, memRead st (st.pc + 1) with
  | some hi, some lo => some ((hi <<< 8) ||| lo)
  | _, _ => none

/-- `_execute_cycle`: fetch, `pc += 2`, then decode and execute. -/
def execute_cycle (rand : Nat) (st : VM) : Option VM :=
  match fetch st with
  | none => none
  | some op => execOp rand op { st with pc := st.pc + 2 }

/-- `_reset`: clears all transient state, leaves `memory` and `rom_loaded`
alone, and sets `running = rom_loaded`. -/
def reset (st : VM) : VM :=
  { st with
    v := fun _ => 0
    i := 0
    pc := 0x200
    stack := []
    delayTimer := 0
    soundTimer := 0
    keys := fun _ => 0
    keyWait := none
    displayBuffer := fun _ => 0
    drawFlag := true
    running := st.romLoaded }

/-- The ROM copy loop of `_load_rom`
(`for i, byte in enumerate(rom_data): ...`), with `idx` the enumeration
index: in-range bytes are written one at a time; the first out-of-range
index raises (`false`), keeping every byte already written. -/
def copyRom : VM → List Nat → Nat → VM × Bool
  | st, [], _ => (st, true)
  | st, b :: rest, idx =>
    if 0x200 + idx < 4096 then
      copyRom { st with memory := upd st.memory (0x200 + idx) b } rest (idx + 1)
    else (st, false)

/-- `_load_rom` after the file has been read: reset, copy the bytes, and on
success set `rom_loaded`/`running`; the `except` handler of a failed copy
clears both flags (the partial writes stay). -/
def load_rom (st : VM) (rom : List Nat) : VM × Bool :=
  match copyRom (reset st) rom 0 with
  | (s, true) => ({ s with romLoaded := true, running := true }, true)
  | (s, false) => ({ s with running := false, romLoaded := false }, false)

/-- `_key_down` after `KEY_MAP` translation, for logical key `k`: record the
press, and if a key wait is latched resolve it and resume. -/
def key_down (st : VM) (k : Nat) : VM :=
  match st.keyWait with
  | some r =>
    { st with keys := upd st.keys k 1, v := upd st.v r k,
              keyWait := none, running := true }
  | none => { st with keys := upd st.keys k 1 }

/-- The timer block of `_emulation_loop`: decrement each positive timer. -/
def tickTimers (st : VM) : VM :=
  { st with
    delayTimer := if 0 < st.delayTimer then st.delayTimer - 1 else st.delayTimer
    soundTimer := if 0 < st.soundTimer then st.soundTimer - 1 else st.soundTimer }

/-- One pass of the `while True` body of `_emulation_loop`.  `cycleDue` and
`timerDue` say whether the corresponding wall-clock interval has elapsed;
when `running` is false the pass only sleeps. -/
def loopPass (cycleDue timerDue : Bool) (rand : Nat) (st : VM) : Option VM :=
  if st.running then
    match (if cycleDue then execute_cycle rand st else some st) with
    | none => none
    | some s => some (if timerDue then tickTimers s else s)
  else some st

/-- `m` consecutive passes of the emulation loop, with per-pass elapsed
flags and random bytes supplied by streams. -/
def runPasses : Nat → (Nat → Bool) → (Nat → Bool) → (Nat → Nat) → VM → Option VM
  | 0, _, _, _, st => some st
  | m + 1, cs, ts, rs, st =>
    match loopPass (cs 0) (ts 0) (rs 0) st with
    | none => none
    | some s => runPasses m (fun j => cs (j + 1)) (fun j => ts (j + 1))
        (fun j => rs (j + 1)) s

/-- `m` consecutive `_execute_cycle` calls fed from a random-byte stream. -/
def runCycles : (Nat → Nat) → Nat → VM → Option VM
  | _, 0, st => some st
  | rs, m + 1, st =>
    match execute_cycle (rs 0) st with
    | none => none
    | some s => runCycles (fun j => rs (j + 1)) m s

/-- The next `m` fetched opcodes (along the run fed by stream `rs`) contain
no `Cxkk` instruction. -/
def noRand : (Nat → Nat) → Nat → VM → Bool
  | _, 0, _ => true
  | rs, m + 1, st =>
    match fetch st with
    | none => true
    | some op =>
      if op &&& 0xF000 = 0xC000 then false
      else
        match execute_cycle (rs 0) st with
        | none => true
        | some s => noRand (fun j => rs (j + 1)) m s

/-- Opcodes that no branch of the `_execute_cycle` dispatch matches. -/
def unmatchedOp (op : Nat) : Prop :=
  (op &&& 0xF000 = 0x0000 ∧ op ≠ 0x00E0 ∧ op ≠ 0x00EE) ∨
  (op &&& 0xF000 = 0x8000 ∧ op &&& 0x000F ≠ 0x0 ∧ op &&& 0x000F ≠ 0x1 ∧
    op &&& 0x000F ≠ 0x2 ∧ op &&& 0x000F ≠ 0x3 ∧ op &&& 0x000F ≠ 0x4 ∧
    op &&& 0x000F ≠ 0x5 ∧ op &&& 0x000F ≠ 0x6 ∧ op &&& 0x000F ≠ 0x7 ∧
    op &&& 0x000F ≠ 0xE) ∨
  (op &&& 0xF000 = 0xE000 ∧ op &&& 0x00FF ≠ 0x9E ∧ op &&& 0x00FF ≠ 0xA1) ∨
  (op &&& 0xF000 = 0xF000 ∧ op &&& 0x00FF ≠ 0x07 ∧ op &&& 0x00FF ≠ 0x0A ∧
    op &&& 0x00FF ≠ 0x15 ∧ op &&& 0x00FF ≠ 0x18 ∧ op &&& 0x00FF ≠ 0x1E ∧
    op &&& 0x00FF ≠ 0x29 ∧ op &&& 0x00FF ≠ 0x33 ∧ op &&& 0x00FF ≠ 0x55 ∧
    op &&& 0x00FF ≠ 0x65)

/-! ## Concrete machine states used as witnesses and counterexamples -/

/-- A freshly constructed machine (all transient state zero, `pc = 0x200`)
holding the given memory image, with a ROM marked loaded and running. -/
def mkVM (mem : Nat → Nat) : VM :=
  { memory := mem
    v := fun _ => 0
    i := 0
    pc := 0x200
    stack := []
    delayTimer := 0
    soundTimer := 0
    displayBuffer := fun _ => 0
    drawFlag := false
    keys := fun _ => 0
    keyWait := none
    running := true
    romLoaded := true }

/-- A machine with zeroed memory (used for the load counterexample). -/
def vm0 : VM := mkVM (fun _ => 0)

/-- Next opcode `8F05` (SUB with `x = 0xF`), `VF = 10`, `V0 = 3`. -/
def c2vm : VM :=
  { mkVM (fun a => if a = 0x200 then 0x8F else if a = 0x201 then 0x05 else 0)
    with v := fun j => if j = 15 then 10 else if j = 0 then 3 else 0 }

/-- Next opcode `8015` (SUB `V0 -= V1`), `V0 = 5`, `V1 = 10`. -/
def c2vmW : VM :=
  { mkVM (fun a => if a = 0x200 then 0x80 else if a = 0x201 then 0x15 else 0)
    with v := fun j => if j = 0 then 5 else if j = 1 then 10 else 0 }

/-- Next opcode `00EE` with an empty stack. -/
def c3vm : VM :=
  mkVM (fun a => if a = 0x200 then 0x00 else if a = 0x201 then 0xEE else 0)

/-- Next opcode `D011` (draw a 1-row sprite), `V0 = 60`, `V1 = 0`,
`I = 0x300`, sprite byte `0xFF`. -/
def c4vm : VM :=
  { mkVM (fun a => if a = 0x200 then 0xD0 else if a = 0x201 then 0x11
      else if a = 0x300 then 0xFF else 0)
    with v := fun j => if j = 0 then 60 else 0, i := 0x300 }

/-- `I = 0x300` pointing at sprite byte `0x80`, all registers zero: a
1-row sprite whose single set pixel lands at the origin. -/
def c5vmW : VM :=
  { mkVM (fun a => if a = 0x300 then 0x80 else 0) with i := 0x300 }

/-- `V0 = 60`, `I = 0x300`, sprite byte `0x01`: a non-empty sprite whose
only set pixel (column 7) starts at x = 60 and is clipped at x = 67. -/
def c5vmC : VM :=
  { mkVM (fun a => if a = 0x300 then 0x01 else 0)
    with v := fun j => if j = 0 then 60 else 0, i := 0x300 }

/-- Next opcode `0ABC`, a `0nnn` pattern that no branch matches. -/
def c6vmW : VM :=
  mkVM (fun a => if a = 0x200 then 0x0A else if a = 0x201 then 0xBC else 0)

/-- Next opcode `5011` (low nibble 1) with `V0 = V1 = 0`. -/
def c6vmC : VM :=
  mkVM (fun a => if a = 0x200 then 0x50 else if a = 0x201 then 0x11 else 0)

/-- Next opcode `D001` with `I = 0x1000`: the sprite read is out of range. -/
def c7vm : VM :=
  { mkVM (fun a => if a = 0x200 then 0xD0 else if a = 0x201 then 0x01 else 0)
    with i := 0x1000 }

/-- Next opcode `F30A` (wait for a key into `V3`). -/
def c8vm : VM :=
  mkVM (fun a => if a = 0x200 then 0xF3 else if a = 0x201 then 0x0A else 0)

/-- Program `6005 610A` (`LD V0, 5`; `LD V1, 0xA`): two cycles with no
`Cxkk` instruction. -/
def c9vm : VM :=
  mkVM (fun a => if a = 0x200 then 0x60 else if a = 0x201 then 0x05
    else if a = 0x202 then 0x61 else if a = 0x203 then 0x0A else 0)

/-! ## C10: reset -/

/-- C10: `_reset` zeroes all 16 V registers, `I`, both timers, the key
states, empties the stack, sets `pc = 0x200`, deactivates the key-wait
latch, blanks the framebuffer with the dirty flag set, and sets `running`
exactly when a ROM is loaded — while leaving every memory byte and the
`rom_loaded` flag unchanged. -/
theorem c10_reset (st : VM) :
    (∀ j, (reset st).v j = 0) ∧ (reset st).i = 0 ∧ (reset st).pc = 0x200 ∧
    (reset st).stack = [] ∧ (reset st).delayTimer = 0 ∧
    (reset st).soundTimer = 0 ∧ (∀ k, (reset st).keys k = 0) ∧
    (reset st).keyWait = none ∧ (∀ a, (reset st).displayBuffer a = 0) ∧
    (reset st).drawFlag = true ∧ (reset st).running = st.romLoaded ∧
    (∀ a, (reset st).memory a = st.memory a) ∧
    (reset st).romLoaded = st.romLoaded := by
  refine ⟨fun j => rfl, rfl, rfl, rfl, rfl, rfl, fun k => rfl, rfl,
    fun a => rfl, rfl, rfl, fun a => rfl, rfl⟩

/-! ## C3: RET on an empty stack -/

/-- C3: executing `00EE` with an empty call stack is a silent no-op: the
step succeeds and the state is unchanged except for the post-fetch
`pc += 2`. -/
theorem c3_ret_empty_stack (rand : Nat) (st : VM)
    (hf : fetch st = some 0x00EE) (hs : st.stack = []) :
    execute_cycle rand st = some { st with pc := st.pc + 2 } := by
  simp only [execute_cycle, hf]
  simp only [execOp, hs]
  simp

/-- C3 witness: a concrete machine whose stack is empty and whose next
opcode is `00EE` steps to the same state with `pc` advanced by 2. -/
theorem c3_witness :
    fetch c3vm = some 0x00EE ∧ c3vm.stack = [] ∧
    execute_cycle 0 c3vm = some { c3vm with pc := c3vm.pc + 2 } :=
  ⟨rfl, rfl, c3_ret_empty_stack 0 c3vm rfl rfl⟩

/-! ## C6: unknown opcodes -/

/-- C6 counterexample: opcode `5011` has a nonzero low nibble, yet it is
not a no-op with a plain `pc += 2`: the dispatch matches every `5xy_`
pattern against the top nibble only, so with `V0 = V1 = 0` the
comparison succeeds and `pc` advances by 4. -/
theorem c6_counterexample :
    Option.map VM.pc (execute_cycle 0 c6vmC) = some 0x204 ∧
    (0x204 : Nat) ≠ 0x200 + 2 := by
  refine ⟨rfl, by decide⟩

/-- C6 amended: an opcode that no branch of the dispatch matches (a
`0nnn` other than `00E0`/`00EE`, an unassigned `8xy_` subtype, or an
unassigned `Ex__`/`Fx__` pattern) silently falls through: the step
succeeds and the state is unchanged except `pc += 2`.  (`5xy_`/`9xy_`
with a nonzero low nibble are matched by the top-nibble dispatch and
execute as the corresponding skip, so they are excluded.) -/
theorem c6_amended (rand : Nat) (st : VM) (op : Nat)
    (hf : fetch st = some op) (hu : unmatchedOp op) :
    execute_cycle rand st = some { st with pc := st.pc + 2 } := by
  simp only [execute_cycle, hf]
  rcases hu with ⟨h0, hE0, hEE⟩ |
    ⟨h0, h1, h2, h3, h4, h5, h6, h7, h8, h9⟩ |
    ⟨h0, h1, h2⟩ |
    ⟨h0, h1, h2, h3, h4, h5, h6, h7, h8, h9⟩
  · simp [execOp, h0, hE0, hEE]
  · simp [execOp, h0, h1, h2, h3, h4, h5, h6, h7, h8, h9]
  · simp [execOp, h0, h1, h2]
  · simp [execOp, h0, h1, h2, h3, h4, h5, h6, h7, h8, h9]

/-- C6 witness: opcode `0ABC` is unmatched, and executing it only
advances `pc` by 2. -/
theorem c6_witness :
    fetch c6vmW = some 0x0ABC ∧ unmatchedOp 0x0ABC ∧
    execute_cycle 0 c6vmW = some { c6vmW with pc := c6vmW.pc + 2 } :=
  ⟨rfl, by unfold unmatchedOp; decide,
    c6_amended 0 c6vmW 0x0ABC rfl (by unfold unmatchedOp; decide)⟩

/-! ## C2: 8xy5 SUB -/

/-- C2 counterexample: executing `8F05` with `VF = 10`, `V0 = 3` leaves
`VF = 254`.  The claim demands `Vx = (10 - 3) mod 256 = 7` (and the flag
value 1 in `VF`): the code writes the flag first and then re-reads
`v[x]`, so with `x = 0xF` the subtraction uses the flag, not the
pre-update `VF`. -/
theorem c2_counterexample :
    Option.map (fun s => s.v 15) (execute_cycle 0 c2vm) = some 254 ∧
    (254 : Nat) ≠ 7 ∧ (254 : Nat) ≠ 1 := by
  refine ⟨rfl, by decide, by decide⟩

/-- C2 amended: for `x ≠ 0xF` and `y ≠ 0xF`, `8xy5` sets `VF` to 1 exactly
when the pre-update `Vx > Vy` and sets `Vx` to `(Vx - Vy) mod 256`
computed from the pre-update operands, with `VF` still holding the flag
when the instruction completes.  When `x` (or `y`) is `0xF` the
subtraction instead reads the just-written flag. -/
theorem c2_amended (rand : Nat) (st : VM) (op : Nat)
    (hf : fetch st = some op) (hop : op &&& 0xF00F = 0x8005)
    (hx : opX op ≠ 15) (hy : opY op ≠ 15) :
    ∃ s, execute_cycle rand st = some s ∧
      s.v 15 = (if st.v (opY op) < st.v (opX op) then 1 else 0) ∧
      s.v (opX op) =
        (((st.v (opX op) : Int) - (st.v (opY op) : Int)) % 256).toNat ∧
      s.pc = st.pc + 2 := by
  have hA : op &&& 0xF000 = 0x8000 := by
    have h2 : op &&& 0xF00F &&& 0xF000 = 0x8005 &&& 0xF000 := by rw [hop]
    rw [Nat.and_assoc] at h2
    exact h2
  have hS : op &&& 0x000F = 0x5 := by
    have h2 : op &&& 0xF00F &&& 0x000F = 0x8005 &&& 0x000F := by rw [hop]
    rw [Nat.and_assoc] at h2
    exact h2
  simp only [execute_cycle, hf, execOp, hA, hS]
  norm_num
  refine ⟨?_, ?_, ?_⟩
  · simp [vset, upd, hx, hy, Ne.symm hx, Ne.symm hy]
  · simp [vset, upd, subByte, hx, hy, Ne.symm hx, Ne.symm hy]
  · rfl

/-- C2 witness: `8015` with `V0 = 5`, `V1 = 10` gives `VF = 0` and
`V0 = 0xFB`. -/
theorem c2_witness :
    fetch c2vmW = some 0x8015 ∧
    (∃ s, execute_cycle 0 c2vmW = some s ∧
      s.v 15 = (if c2vmW.v (opY 0x8015) < c2vmW.v (opX 0x8015) then 1 else 0) ∧
      s.v (opX 0x8015) =
        (((c2vmW.v (opX 0x8015) : Int) - (c2vmW.v (opY 0x8015) : Int)) % 256).toNat ∧
      s.pc = c2vmW.pc + 2) :=
  ⟨rfl, c2_amended 0 c2vmW 0x8015 rfl (by decide) (by decide) (by decide)⟩

/-! ## C1: ROM load -/

/-- The copy loop never touches addresses below `0x200 + idx`. -/
theorem copyRom_mem_lt (rom : List Nat) : ∀ idx st a, a < 0x200 + idx →
    (copyRom st rom idx).1.memory a = st.memory a := by
  induction rom with
  | nil => intro idx st a _; rfl
  | cons b rest ih =>
    intro idx st a ha
    unfold copyRom
    by_cases h4 : 0x200 + idx < 4096
    · rw [if_pos h4, ih (idx + 1) _ a (by omega)]
      simp [upd, show a ≠ 0x200 + idx by omega]
    · rw [if_neg h4]

/-- Whatever the final outcome, the copy loop has stored every byte whose
target address it reached. -/
theorem copyRom_mem_get (rom : List Nat) : ∀ idx st j, j < rom.length →
    0x200 + idx + j < 4096 →
    (copyRom st rom idx).1.memory (0x200 + idx + j) = rom.getD j 0 := by
  induction rom with
  | nil => intro idx st j hj _; simp at hj
  | cons b rest ih =>
    intro idx st j hj hlt
    unfold copyRom
    have h4 : 0x200 + idx < 4096 := by omega
    rw [if_pos h4]
    cases j with
    | zero =>
      rw [copyRom_mem_lt rest (idx + 1) _ (0x200 + idx + 0) (by omega)]
      simp [upd]
    | succ j2 =>
      have hh := ih (idx + 1)
        { st with memory := upd st.memory (0x200 + idx) b } j2
        (by simp at hj; omega) (by omega)
      have harith : 0x200 + (idx + 1) + j2 = 0x200 + idx + (j2 + 1) := by omega
      rw [harith] at hh
      simpa using hh

/-- The copy loop fails whenever more bytes remain than program space. -/
theorem copyRom_fail (rom : List Nat) : ∀ idx st, idx ≤ 3584 →
    3584 < idx + rom.length → (copyRom st rom idx).2 = false := by
  induction rom with
  | nil => intro idx st h1 h2; simp at h2; omega
  | cons b rest ih =>
    intro idx st h1 h2
    unfold copyRom
    by_cases h4 : 0x200 + idx < 4096
    · rw [if_pos h4]
      exact ih (idx + 1) _ (by omega) (by simp at h2 ⊢; omega)
    · rw [if_neg h4]

/-- Both outcomes of `load_rom` carry the copy loop's memory through. -/
theorem load_rom_memory (st : VM) (rom : List Nat) :
    (load_rom st rom).1.memory = (copyRom (reset st) rom 0).1.memory := by
  unfold load_rom
  rcases h : copyRom (reset st) rom 0 with ⟨s, ok⟩
  cases ok <;> rfl

/-- C1 counterexample: loading a 3585-byte ROM of `7`s into a machine with
zeroed memory fails, yet afterwards memory byte `0x200` holds `7` — the
failed load is not all-or-nothing and the VM is not in its previous
state. -/
theorem c1_counterexample :
    vm0.memory 0x200 = 0 ∧
    (load_rom vm0 (List.replicate 3585 7)).2 = false ∧
    (load_rom vm0 (List.replicate 3585 7)).1.memory 0x200 = 7 := by
  have hlen : (List.replicate 3585 (7 : Nat)).length = 3585 :=
    List.length_replicate 3585 7
  refine ⟨rfl, ?_, ?_⟩
  · unfold load_rom
    rcases h : copyRom (reset vm0) (List.replicate 3585 7) 0 with ⟨s, ok⟩
    have hf := copyRom_fail (List.replicate 3585 7) 0 (reset vm0)
      (by omega) (by rw [hlen]; omega)
    rw [h] at hf
    simp at hf
    subst hf
    rfl
  · rw [congrFun (load_rom_memory vm0 (List.replicate 3585 7)) 0x200]
    have hg := copyRom_mem_get (List.replicate 3585 7) 0 (reset vm0) 0
      (by rw [hlen]; omega) (by omega)
    have h7 : (List.replicate 3585 (7 : Nat)).getD 0 0 = 7 := rfl
    rw [h7] at hg
    simpa only [Nat.add_zero] using hg

/-- C1 amended: a ROM longer than `4096 - 0x200 = 3584` bytes makes the
load fail with the size-exceeded error reported to the caller
(`running` and `rom_loaded` end up false), but the failed load is not
all-or-nothing: the VM has been reset and the first 3584 ROM bytes have
been written into memory `0x200`–`0xFFF` before the error is raised
(addresses below `0x200` keep their previous contents). -/
theorem c1_amended (st : VM) (rom : List Nat) (h : 3584 < rom.length) :
    (load_rom st rom).2 = false ∧
    (load_rom st rom).1.running = false ∧
    (load_rom st rom).1.romLoaded = false ∧
    (∀ j, j < 3584 → (load_rom st rom).1.memory (0x200 + j) = rom.getD j 0) ∧
    (∀ a, a < 0x200 → (load_rom st rom).1.memory a = st.memory a) := by
  have hf := copyRom_fail rom 0 (reset st) (by omega) (by omega)
  obtain ⟨s, hs⟩ : ∃ s, copyRom (reset st) rom 0 = (s, false) := by
    rcases h2 : copyRom (reset st) rom 0 with ⟨s, ok⟩
    rw [h2] at hf
    simp at hf
    subst hf
    exact ⟨s, rfl⟩
  have hload : load_rom st rom =
      Prod.mk { s with running := false, romLoaded := false } false := by
    unfold load_rom
    rw [hs]
  refine ⟨by rw [hload], by rw [hload], by rw [hload], ?_, ?_⟩
  · intro j hj
    rw [hload]
    have hg := copyRom_mem_get rom 0 (reset st) j (by omega) (by omega)
    rw [hs] at hg
    simpa only [Nat.zero_add, Nat.add_zero] using hg
  · intro a ha
    rw [hload]
    have hl := copyRom_mem_lt rom 0 (reset st) a (by omega)
    rw [hs] at hl
    simpa only [] using hl

/-- C1 witness: the amended statement applies to the concrete 3585-byte
ROM of `7`s. -/
theorem c1_witness :
    3584 < (List.replicate 3585 7).length ∧
    ((load_rom vm0 (List.replicate 3585 7)).2 = false ∧
      (load_rom vm0 (List.replicate 3585 7)).1.running = false ∧
      (load_rom vm0 (List.replicate 3585 7)).1.romLoaded = false ∧
      (∀ j, j < 3584 →
        (load_rom vm0 (List.replicate 3585 7)).1.memory (0x200 + j) =
          (List.replicate 3585 7).getD j 0) ∧
      (∀ a, a < 0x200 →
        (load_rom vm0 (List.replicate 3585 7)).1.memory a = vm0.memory a)) :=
  ⟨by rw [List.length_replicate]; omega,
    c1_amended vm0 (List.replicate 3585 7)
      (by rw [List.length_replicate]; omega)⟩

/-! ## C7: out-of-range I terminates stepping -/

/-- C7: executing `D001` with `I = 0x1000` makes the sprite-byte read
`self.memory[self.i + row]` raise an uncaught `IndexError` (`none`): the
exception propagates out of `_emulation_loop` and kills the emulation
thread, terminating the simulation activity instead of being absorbed
or reported. -/
theorem c7_bug : execute_cycle 0 c7vm = none := rfl

/-- C7 auxiliary: the same uncaught exception seen at the scheduler-loop
level — the loop pass that runs this cycle also evaluates to `none`. -/
theorem c7_bug_pass : loopPass true false 0 c7vm = none := rfl

/-! ## C8: Fx0A key wait -/

/-- While `running` is false, every emulation-loop pass leaves the machine
untouched (the loop only sleeps). -/
theorem runPasses_not_running (s : VM) (h : s.running = false) :
    ∀ m cs ts rs, runPasses m cs ts rs s = some s := by
  intro m
  induction m with
  | zero => intro cs ts rs; rfl
  | succ m ih =>
    intro cs ts rs
    simp only [runPasses, loopPass, h]
    simp only [Bool.false_eq_true, if_false]
    exact ih _ _ _

/-- C8: executing `Fx0A` records `x` in the key-wait latch and clears
`running`, so no later emulation-loop pass executes an instruction or
moves `pc`; a subsequent press of logical key `k` writes `k` into `Vx`,
clears the latch, records the raw key state, and sets `running` again. -/
theorem c8_keywait (rand : Nat) (st : VM) (op : Nat)
    (hf : fetch st = some op) (hop : op &&& 0xF0FF = 0xF00A) :
    ∃ s, execute_cycle rand st = some s ∧ s.running = false ∧
      s.keyWait = some (opX op) ∧ s.pc = st.pc + 2 ∧
      (∀ m cs ts rs, runPasses m cs ts rs s = some s) ∧
      (∀ k, (key_down s k).v (opX op) = k ∧ (key_down s k).keyWait = none ∧
        (key_down s k).keys k = 1 ∧ (key_down s k).running = true) := by
  have hA : op &&& 0xF000 = 0xF000 := by
    have h2 : op &&& 0xF0FF &&& 0xF000 = 0xF00A &&& 0xF000 := by rw [hop]
    rw [Nat.and_assoc] at h2
    exact h2
  have hK : op &&& 0x00FF = 0x0A := by
    have h2 : op &&& 0xF0FF &&& 0x00FF = 0xF00A &&& 0x00FF := by rw [hop]
    rw [Nat.and_assoc] at h2
    exact h2
  refine ⟨{ st with
            pc := st.pc + 2
            keyWait := some (opX op)
            running := false }, ?_, rfl, rfl, rfl, ?_, ?_⟩
  · simp only [execute_cycle, hf, execOp, hA, hK]
    norm_num
  · exact runPasses_not_running _ rfl
  · intro k
    refine ⟨?_, rfl, ?_, rfl⟩
    · simp [key_down, upd]
    · simp [key_down, upd]

/-- C8 witness: the concrete machine whose next opcode is `F30A`. -/
theorem c8_witness :
    fetch c8vm = some 0xF30A ∧
    (∃ s, execute_cycle 0 c8vm = some s ∧ s.running = false ∧
      s.keyWait = some (opX 0xF30A) ∧ s.pc = c8vm.pc + 2 ∧
      (∀ m cs ts rs, runPasses m cs ts rs s = some s) ∧
      (∀ k, (key_down s k).v (opX 0xF30A) = k ∧
        (key_down s k).keyWait = none ∧
        (key_down s k).keys k = 1 ∧ (key_down s k).running = true)) :=
  ⟨rfl, c8_keywait 0 c8vm 0xF30A rfl (by decide)⟩

/-! ## C9: determinism away from Cxkk -/

/-- The injected random byte is consulted only by the `Cxkk` branch. -/
theorem execOp_rand_indep (r r2 op : Nat) (st : VM)
    (h : op &&& 0xF000 ≠ 0xC000) : execOp r op st = execOp r2 op st := by
  by_cases h0 : op &&& 0xF000 = 0x0000
  · simp [execOp, h0]
  by_cases h1 : op &&& 0xF000 = 0x1000
  · simp [execOp, h1]
  by_cases h2 : op &&& 0xF000 = 0x2000
  · simp [execOp, h2]
  by_cases h3 : op &&& 0xF000 = 0x3000
  · simp [execOp, h3]
  by_cases h4 : op &&& 0xF000 = 0x4000
  · simp [execOp, h4]
  by_cases h5 : op &&& 0xF000 = 0x5000
  · simp [execOp, h5]
  by_cases h6 : op &&& 0xF000 = 0x6000
  · simp [execOp, h6]
  by_cases h7 : op &&& 0xF000 = 0x7000
  · simp [execOp, h7]
  by_cases h8 : op &&& 0xF000 = 0x8000
  · simp [execOp, h8]
  by_cases h9 : op &&& 0xF000 = 0x9000
  · simp [execOp, h9]
  by_cases hA : op &&& 0xF000 = 0xA000
  · simp [execOp, hA]
  by_cases hB : op &&& 0xF000 = 0xB000
  · simp [execOp, hB]
  by_cases hD : op &&& 0xF000 = 0xD000
  · simp [execOp, hD]
  by_cases hE : op &&& 0xF000 = 0xE000
  · simp [execOp, hE]
  by_cases hF : op &&& 0xF000 = 0xF000
  · simp [execOp, hF]
  simp [execOp, h0, h1, h2, h3, h4, h5, h6, h7, h8, h9, hA, hB, h, hD, hE, hF]

/-- A whole cycle is independent of the random byte unless it fetches a
`Cxkk` opcode. -/
theorem execute_cycle_rand_indep (r r2 : Nat) (st : VM) (op : Nat)
    (hf : fetch st = some op) (h : op &&& 0xF000 ≠ 0xC000) :
    execute_cycle r st = execute_cycle r2 st := by
  simp only [execute_cycle, hf]
  exact execOp_rand_indep r r2 op _ h

/-- C9: running the same number of cycles twice from the same state, under
any two random-byte streams, yields identical results as long as the
executed trace contains no `Cxkk` opcode — each step is a deterministic
function of the VM state. -/
theorem c9_deterministic (m : Nat) : ∀ (rs1 rs2 : Nat → Nat) (st : VM),
    noRand rs1 m st = true → runCycles rs1 m st = runCycles rs2 m st := by
  induction m with
  | zero => intro rs1 rs2 st _; rfl
  | succ m ih =>
    intro rs1 rs2 st h
    unfold runCycles
    cases hf : fetch st with
    | none =>
      have h1 : execute_cycle (rs1 0) st = none := by
        simp [execute_cycle, hf]
      have h2 : execute_cycle (rs2 0) st = none := by
        simp [execute_cycle, hf]
      rw [h1, h2]
    | some op =>
      simp only [noRand, hf] at h
      by_cases hC : op &&& 0xF000 = 0xC000
      · rw [if_pos hC] at h
        cases h
      · rw [if_neg hC] at h
        have he := execute_cycle_rand_indep (rs1 0) (rs2 0) st op hf hC
        rw [← he]
        cases hx : execute_cycle (rs1 0) st with
        | none => rfl
        | some s =>
          rw [hx] at h
          exact ih _ _ _ h

/-- C9 witness: a two-instruction trace (`6005`, `610A`) with no `Cxkk`
gives the same run under two different random streams. -/
theorem c9_witness :
    noRand (fun _ => 0) 2 c9vm = true ∧
    runCycles (fun _ => 0) 2 c9vm = runCycles (fun _ => 37) 2 c9vm :=
  ⟨rfl, c9_deterministic 2 (fun _ => 0) (fun _ => 37) c9vm rfl⟩

/-! ## Column-scan lemmas for Dxyn -/

/-- A column step never touches memory. -/
theorem colStep_memory (startX pixelY b col : Nat) (st : VM) :
    (colStep startX pixelY b col st).memory = st.memory := by
  unfold colStep drawPixelXor
  split
  · rfl
  · split <;> rfl

/-- A column step never touches the index register. -/
theorem colStep_i (startX pixelY b col : Nat) (st : VM) :
    (colStep startX pixelY b col st).i = st.i := by
  unfold colStep drawPixelXor
  split
  · rfl
  · split <;> rfl

/-- A column step leaves every framebuffer cell other than its own target
cell alone. -/
theorem colStep_buf (startX pixelY b col : Nat) (st : VM) (a : Nat)
    (ha : startX + col < 64 → b &&& (0x80 >>> col) ≠ 0 →
      a ≠ startX + col + pixelY * 64) :
    (colStep startX pixelY b col st).displayBuffer a = st.displayBuffer a := by
  unfold colStep drawPixelXor
  by_cases h64 : 64 ≤ startX + col
  · rw [if_pos h64]
  · rw [if_neg h64]
    by_cases hb : b &&& (0x80 >>> col) ≠ 0
    · rw [if_pos hb]
      simp [upd, ha (by omega) hb]
    · rw [if_neg hb]

/-- A column step leaves every V register other than `VF` alone. -/
theorem colStep_v (startX pixelY b col : Nat) (st : VM) (j : Nat)
    (hj : j ≠ 15) :
    (colStep startX pixelY b col st).v j = st.v j := by
  unfold colStep drawPixelXor
  by_cases h64 : 64 ≤ startX + col
  · rw [if_pos h64]
  · rw [if_neg h64]
    by_cases hb : b &&& (0x80 >>> col) ≠ 0
    · rw [if_pos hb]
      simp [upd, hj]
    · rw [if_neg hb]

/-- A non-colliding column step leaves `VF` alone. -/
theorem colStep_v15_clear (startX pixelY b col : Nat) (st : VM)
    (hc : startX + col < 64 → b &&& (0x80 >>> col) ≠ 0 →
      st.displayBuffer (startX + col + pixelY * 64) ≠ 1) :
    (colStep startX pixelY b col st).v 15 = st.v 15 := by
  unfold colStep drawPixelXor
  by_cases h64 : 64 ≤ startX + col
  · rw [if_pos h64]
  · rw [if_neg h64]
    by_cases hb : b &&& (0x80 >>> col) ≠ 0
    · rw [if_pos hb]
      simp [upd, hc (by omega) hb]
    · rw [if_neg hb]

/-- A column step never clears an already-set `VF`. -/
theorem colStep_v15_mono (startX pixelY b col : Nat) (st : VM)
    (h : st.v 15 = 1) :
    (colStep startX pixelY b col st).v 15 = 1 := by
  unfold colStep drawPixelXor
  by_cases h64 : 64 ≤ startX + col
  · rw [if_pos h64]; exact h
  · rw [if_neg h64]
    by_cases hb : b &&& (0x80 >>> col) ≠ 0
    · rw [if_pos hb]
      simp [upd]
      intro _
      exact h
    · rw [if_neg hb]; exact h

/-- A visible set-bit column step on a lit cell reports the collision. -/
theorem colStep_v15_hit (startX pixelY b col : Nat) (st : VM)
    (h64 : startX + col < 64) (hb : b &&& (0x80 >>> col) ≠ 0)
    (hlit : st.displayBuffer (startX + col + pixelY * 64) = 1) :
    (colStep startX pixelY b col st).v 15 = 1 := by
  unfold colStep drawPixelXor
  rw [if_neg (by omega), if_pos hb]
  simp [upd, hlit]

/-- A visible set-bit column step XORs its target cell. -/
theorem colStep_buf_toggle (startX pixelY b col : Nat) (st : VM)
    (h64 : startX + col < 64) (hb : b &&& (0x80 >>> col) ≠ 0) :
    (colStep startX pixelY b col st).displayBuffer
        (startX + col + pixelY * 64) =
      st.displayBuffer (startX + col + pixelY * 64) ^^^ 1 := by
  unfold colStep drawPixelXor
  rw [if_neg (by omega), if_pos hb]
  simp [upd]

/-- The column scan never touches memory. -/
theorem drawCols_memory (startX pixelY b : Nat) : ∀ count col st,
    (drawCols startX pixelY b col count st).memory = st.memory := by
  intro count
  induction count with
  | zero => intro col st; rfl
  | succ c ih =>
    intro col st
    unfold drawCols
    rw [ih (col + 1) _, colStep_memory]

/-- The column scan never touches the index register. -/
theorem drawCols_i (startX pixelY b : Nat) : ∀ count col st,
    (drawCols startX pixelY b col count st).i = st.i := by
  intro count
  induction count with
  | zero => intro col st; rfl
  | succ c ih =>
    intro col st
    unfold drawCols
    rw [ih (col + 1) _, colStep_i]

/-- The column scan leaves alone every framebuffer cell that is not the
target of one of its visible columns. -/
theorem drawCols_buf (startX pixelY b : Nat) : ∀ count col st a,
    (∀ c, col ≤ c → c < col + count → startX + c < 64 →
      b &&& (0x80 >>> c) ≠ 0 → a ≠ startX + c + pixelY * 64) →
    (drawCols startX pixelY b col count st).displayBuffer a =
      st.displayBuffer a := by
  intro count
  induction count with
  | zero => intro col st a _; rfl
  | succ c ih =>
    intro col st a ha
    unfold drawCols
    rw [ih (col + 1) _ a
        fun c2 hc1 hc2 h64 hb => ha c2 (by omega) (by omega) h64 hb,
      colStep_buf _ _ _ _ _ _
        fun h64 hb => ha col (by omega) (by omega) h64 hb]

/-- The column scan leaves every V register other than `VF` alone. -/
theorem drawCols_v (startX pixelY b : Nat) : ∀ count col st j, j ≠ 15 →
    (drawCols startX pixelY b col count st).v j = st.v j := by
  intro count
  induction count with
  | zero => intro col st j _; rfl
  | succ c ih =>
    intro col st j hj
    unfold drawCols
    rw [ih (col + 1) _ j hj, colStep_v _ _ _ _ _ j hj]

/-- If no visible set bit of the scanned byte lands on a lit cell, the
column scan leaves `VF` alone. -/
theorem drawCols_v15_clear (startX pixelY b : Nat) : ∀ count col st,
    (∀ c, col ≤ c → c < col + count → startX + c < 64 →
      b &&& (0x80 >>> c) ≠ 0 →
      st.displayBuffer (startX + c + pixelY * 64) ≠ 1) →
    (drawCols startX pixelY b col count st).v 15 = st.v 15 := by
  intro count
  induction count with
  | zero => intro col st _; rfl
  | succ c ih =>
    intro col st hclear
    unfold drawCols
    have hstep : ∀ a,
        (colStep startX pixelY b col st).displayBuffer a = st.displayBuffer a ∨
        a = startX + col + pixelY * 64 := by
      intro a
      by_cases he : a = startX + col + pixelY * 64
      · exact Or.inr he
      · exact Or.inl (colStep_buf _ _ _ _ _ _ fun _ _ => he)
    rw [ih (col + 1) _ ?_, colStep_v15_clear _ _ _ _ _
      fun h64 hb => hclear col (by omega) (by omega) h64 hb]
    intro c2 hc1 hc2 h64 hb
    rcases hstep (startX + c2 + pixelY * 64) with he | he
    · rw [he]
      exact hclear c2 (by omega) (by omega) h64 hb
    · exact absurd he (by omega)

/-- The column scan never clears an already-set `VF`. -/
theorem drawCols_v15_mono (startX pixelY b : Nat) : ∀ count col st,
    st.v 15 = 1 → (drawCols startX pixelY b col count st).v 15 = 1 := by
  intro count
  induction count with
  | zero => intro col st h; exact h
  | succ c ih =>
    intro col st h
    unfold drawCols
    exact ih (col + 1) _ (colStep_v15_mono _ _ _ _ _ h)

/-- If some visible set bit of the scanned byte lands on a lit cell, the
column scan reports a collision in `VF`. -/
theorem drawCols_v15_hit (startX pixelY b : Nat) : ∀ count col st c,
    col ≤ c → c < col + count → startX + c < 64 → b &&& (0x80 >>> c) ≠ 0 →
    st.displayBuffer (startX + c + pixelY * 64) = 1 →
    (drawCols startX pixelY b col count st).v 15 = 1 := by
  intro count
  induction count with
  | zero => intro col st c h1 h2; omega
  | succ cnt ih =>
    intro col st c h1 h2 h64 hb hlit
    unfold drawCols
    by_cases hc : c = col
    · subst hc
      exact drawCols_v15_mono _ _ _ _ _ _ (colStep_v15_hit _ _ _ _ _ h64 hb hlit)
    · refine ih (col + 1) _ c (by omega) (by omega) h64 hb ?_
      rw [colStep_buf _ _ _ _ _ _ fun _ _ => by omega]
      exact hlit

/-- A visible set bit toggles exactly its own cell across the column scan. -/
theorem drawCols_buf_toggle (startX pixelY b : Nat) : ∀ count col st c,
    col ≤ c → c < col + count → startX + c < 64 → b &&& (0x80 >>> c) ≠ 0 →
    (drawCols startX pixelY b col count st).displayBuffer
        (startX + c + pixelY * 64) =
      st.displayBuffer (startX + c + pixelY * 64) ^^^ 1 := by
  intro count
  induction count with
  | zero => intro col st c h1 h2; omega
  | succ cnt ih =>
    intro col st c h1 h2 h64 hb
    unfold drawCols
    by_cases hc : c = col
    · subst hc
      rw [drawCols_buf _ _ _ _ _ _ _ fun c2 hc1 hc2 h64b hbb => by omega,
        colStep_buf_toggle _ _ _ _ _ h64 hb]
    · rw [ih (col + 1) _ c (by omega) (by omega) h64 hb,
        colStep_buf _ _ _ _ _ _ fun _ _ => by omega]

/-! ## Row-scan lemmas for Dxyn -/

/-- A successful `memRead` means the address was in range and returned the
memory byte. -/
theorem memRead_some (st : VM) (a b : Nat) (h : memRead st a = some b) :
    b = st.memory a ∧ a < 4096 := by
  unfold memRead at h
  by_cases h4 : a < 4096
  · rw [if_pos h4] at h
    exact ⟨(Option.some.inj h).symm, h4⟩
  · rw [if_neg h4] at h
    cases h

/-- A row step never touches memory. -/
theorem rowStep_memory (startX startY b row : Nat) (st : VM) :
    (rowStep startX startY b row st).memory = st.memory := by
  unfold rowStep
  split
  · rfl
  · rw [drawCols_memory]

/-- A row step never touches the index register. -/
theorem rowStep_i (startX startY b row : Nat) (st : VM) :
    (rowStep startX startY b row st).i = st.i := by
  unfold rowStep
  split
  · rfl
  · rw [drawCols_i]

/-- A row step leaves alone every framebuffer cell outside its own row's
visible targets. -/
theorem rowStep_buf (startX startY b row : Nat) (st : VM) (a : Nat)
    (ha : ∀ c, startY + row < 32 → c < 8 → startX + c < 64 →
      b &&& (0x80 >>> c) ≠ 0 → a ≠ startX + c + (startY + row) * 64) :
    (rowStep startX startY b row st).displayBuffer a = st.displayBuffer a := by
  unfold rowStep
  by_cases h32 : 32 ≤ startY + row
  · rw [if_pos h32]
  · rw [if_neg h32]
    exact drawCols_buf _ _ _ _ _ _ _
      fun c hc1 hc2 h64 hb => ha c (by omega) (by omega) h64 hb

/-- A row step leaves every V register other than `VF` alone. -/
theorem rowStep_v (startX startY b row : Nat) (st : VM) (j : Nat)
    (hj : j ≠ 15) :
    (rowStep startX startY b row st).v j = st.v j := by
  unfold rowStep
  by_cases h32 : 32 ≤ startY + row
  · rw [if_pos h32]
  · rw [if_neg h32]
    exact drawCols_v _ _ _ _ _ _ j hj

/-- The row scan never touches memory. -/
theorem drawRowsFrom_memory (startX startY iReg : Nat) : ∀ count row st st',
    drawRowsFrom startX startY iReg row count st = some st' →
    st'.memory = st.memory := by
  intro count
  induction count with
  | zero => intro row st st' heq; cases heq; rfl
  | succ cnt ih =>
    intro row st st' heq
    unfold drawRowsFrom at heq
    rcases hm : memRead st (iReg + row) with _ | b
    · rw [hm] at heq; cases heq
    · rw [hm] at heq
      rw [ih (row + 1) _ st' heq, rowStep_memory]

/-- The row scan never touches the index register. -/
theorem drawRowsFrom_i (startX startY iReg : Nat) : ∀ count row st st',
    drawRowsFrom startX startY iReg row count st = some st' →
    st'.i = st.i := by
  intro count
  induction count with
  | zero => intro row st st' heq; cases heq; rfl
  | succ cnt ih =>
    intro row st st' heq
    unfold drawRowsFrom at heq
    rcases hm : memRead st (iReg + row) with _ | b
    · rw [hm] at heq; cases heq
    · rw [hm] at heq
      rw [ih (row + 1) _ st' heq, rowStep_i]

/-- The row scan leaves every V register other than `VF` alone. -/
theorem drawRowsFrom_v (startX startY iReg : Nat) : ∀ count row st st',
    drawRowsFrom startX startY iReg row count st = some st' →
    ∀ j, j ≠ 15 → st'.v j = st.v j := by
  intro count
  induction count with
  | zero => intro row st st' heq j _; cases heq; rfl
  | succ cnt ih =>
    intro row st st' heq j hj
    unfold drawRowsFrom at heq
    rcases hm : memRead st (iReg + row) with _ | b
    · rw [hm] at heq; cases heq
    · rw [hm] at heq
      rw [ih (row + 1) _ st' heq j hj, rowStep_v _ _ _ _ _ j hj]

/-- The row scan leaves alone every framebuffer cell that is not a visible
target of one of its rows. -/
theorem drawRowsFrom_buf (startX startY iReg : Nat) : ∀ count row st st' a,
    drawRowsFrom startX startY iReg row count st = some st' →
    (∀ r c, row ≤ r → r < row + count → startY + r < 32 → c < 8 →
      startX + c < 64 → st.memory (iReg + r) &&& (0x80 >>> c) ≠ 0 →
      a ≠ startX + c + (startY + r) * 64) →
    st'.displayBuffer a = st.displayBuffer a := by
  intro count
  induction count with
  | zero => intro row st st' a heq _; cases heq; rfl
  | succ cnt ih =>
    intro row st st' a heq ha
    unfold drawRowsFrom at heq
    rcases hm : memRead st (iReg + row) with _ | b
    · rw [hm] at heq; cases heq
    · rw [hm] at heq
      obtain ⟨hbval, _⟩ := memRead_some st (iReg + row) b hm
      rw [ih (row + 1) _ st' a heq fun r c h1 h2 h3 h4 h5 hb =>
        ha r c (by omega) (by omega) h3 h4 h5
          (by rw [rowStep_memory] at hb; exact hb)]
      exact rowStep_buf _ _ _ _ _ _
        fun c h32 hc8 h64 hb => ha row c (by omega) (by omega) h32 hc8 h64
          (by rw [← hbval]; exact hb)

/-- A visible set sprite bit toggles exactly its own cell across the whole
row scan. -/
theorem drawRowsFrom_toggle (startX startY iReg : Nat) : ∀ count row st st',
    drawRowsFrom startX startY iReg row count st = some st' →
    ∀ r c, row ≤ r → r < row + count → startY + r < 32 → c < 8 →
      startX + c < 64 → st.memory (iReg + r) &&& (0x80 >>> c) ≠ 0 →
    st'.displayBuffer (startX + c + (startY + r) * 64) =
      st.displayBuffer (startX + c + (startY + r) * 64) ^^^ 1 := by
  intro count
  induction count with
  | zero => intro row st st' heq r c h1 h2; omega
  | succ cnt ih =>
    intro row st st' heq r c h1 h2 h3 h4 h5 hbit
    unfold drawRowsFrom at heq
    rcases hm : memRead st (iReg + row) with _ | b
    · rw [hm] at heq; cases heq
    · rw [hm] at heq
      obtain ⟨hbval, _⟩ := memRead_some st (iReg + row) b hm
      by_cases hr : r = row
      · subst hr
        rw [drawRowsFrom_buf startX startY iReg cnt (r + 1) _ st' _ heq
          fun r2 c2 g1 g2 g3 g4 g5 g6 => by omega]
        unfold rowStep
        rw [if_neg (by omega)]
        exact drawCols_buf_toggle startX (startY + r) b 8 0 st c
          (by omega) (by omega) h5 (by rw [← hbval] at hbit; exact hbit)
      · have hsm : (rowStep startX startY b row st).memory (iReg + r) =
            st.memory (iReg + r) := by rw [rowStep_memory]
        rw [ih (row + 1) _ st' heq r c (by omega) (by omega) h3 h4 h5
          (by rw [hsm]; exact hbit)]
        rw [rowStep_buf _ _ _ _ _ _ fun c2 h32 hc8 h64 hbb => by omega]

/-- If no visible set sprite bit lands on a lit cell, the row scan leaves
every V register alone. -/
theorem drawRowsFrom_v_clear (startX startY iReg : Nat) : ∀ count row st st',
    drawRowsFrom startX startY iReg row count st = some st' →
    (∀ r c, row ≤ r → r < row + count → startY + r < 32 → c < 8 →
      startX + c < 64 → st.memory (iReg + r) &&& (0x80 >>> c) ≠ 0 →
      st.displayBuffer (startX + c + (startY + r) * 64) ≠ 1) →
    ∀ j, st'.v j = st.v j := by
  intro count
  induction count with
  | zero => intro row st st' heq _ j; cases heq; rfl
  | succ cnt ih =>
    intro row st st' heq hclear j
    unfold drawRowsFrom at heq
    rcases hm : memRead st (iReg + row) with _ | b
    · rw [hm] at heq; cases heq
    · rw [hm] at heq
      obtain ⟨hbval, _⟩ := memRead_some st (iReg + row) b hm
      have hv : ∀ j2, (rowStep startX startY b row st).v j2 = st.v j2 := by
        intro j2
        by_cases hj : j2 = 15
        · subst hj
          unfold rowStep
          by_cases h32 : 32 ≤ startY + row
          · rw [if_pos h32]
          · rw [if_neg h32]
            exact drawCols_v15_clear _ _ _ _ _ _
              fun c hc1 hc2 h64 hbset => hclear row c (by omega) (by omega)
                (by omega) (by omega) h64 (by rw [hbval] at hbset; exact hbset)
        · exact rowStep_v _ _ _ _ _ j2 hj
      rw [ih (row + 1) _ st' heq ?_ j, hv j]
      intro r c h1 h2 h3 h4 h5 hbit
      have hsm : (rowStep startX startY b row st).memory (iReg + r) =
          st.memory (iReg + r) := by rw [rowStep_memory]
      rw [hsm] at hbit
      rw [rowStep_buf _ _ _ _ _ _ fun c2 h32 hc8 h64 hbb => by omega]
      exact hclear r c (by omega) (by omega) h3 h4 h5 hbit

/-- The row scan never clears an already-set `VF`. -/
theorem drawRowsFrom_v15_mono (startX startY iReg : Nat) : ∀ count row st st',
    drawRowsFrom startX startY iReg row count st = some st' →
    st.v 15 = 1 → st'.v 15 = 1 := by
  intro count
  induction count with
  | zero => intro row st st' heq h; cases heq; exact h
  | succ cnt ih =>
    intro row st st' heq h
    unfold drawRowsFrom at heq
    rcases hm : memRead st (iReg + row) with _ | b
    · rw [hm] at heq; cases heq
    · rw [hm] at heq
      refine ih (row + 1) _ st' heq ?_
      unfold rowStep
      by_cases h32 : 32 ≤ startY + row
      · rw [if_pos h32]; exact h
      · rw [if_neg h32]
        exact drawCols_v15_mono _ _ _ _ _ _ h

/-- If some visible set sprite bit lands on a lit cell, the row scan
reports a collision in `VF`. -/
theorem drawRowsFrom_v15_hit (startX startY iReg : Nat) : ∀ count row st st',
    drawRowsFrom startX startY iReg row count st = some st' →
    ∀ r c, row ≤ r → r < row + count → startY + r < 32 → c < 8 →
      startX + c < 64 → st.memory (iReg + r) &&& (0x80 >>> c) ≠ 0 →
      st.displayBuffer (startX + c + (startY + r) * 64) = 1 →
    st'.v 15 = 1 := by
  intro count
  induction count with
  | zero => intro row st st' heq r c h1 h2; omega
  | succ cnt ih =>
    intro row st st' heq r c h1 h2 h3 h4 h5 hbit hlit
    unfold drawRowsFrom at heq
    rcases hm : memRead st (iReg + row) with _ | b
    · rw [hm] at heq; cases heq
    · rw [hm] at heq
      obtain ⟨hbval, _⟩ := memRead_some st (iReg + row) b hm
      by_cases hr : r = row
      · subst hr
        refine drawRowsFrom_v15_mono startX startY iReg cnt (r + 1) _ st'
          heq ?_
        unfold rowStep
        rw [if_neg (by omega)]
        exact drawCols_v15_hit startX (startY + r) b 8 0 st c (by omega)
          (by omega) h5 (by rw [← hbval] at hbit; exact hbit) hlit
      · have hsm : (rowStep startX startY b row st).memory (iReg + r) =
            st.memory (iReg + r) := by rw [rowStep_memory]
        refine ih (row + 1) _ st' heq r c (by omega) (by omega) h3 h4 h5
          (by rw [hsm]; exact hbit) ?_
        rw [rowStep_buf _ _ _ _ _ _ fun c2 h32 hc8 h64 hbb => by omega]
        exact hlit

/-- With every sprite byte in range, the row scan succeeds. -/
theorem drawRowsFrom_some (startX startY iReg : Nat) : ∀ count row st,
    iReg + row + count ≤ 4096 →
    ∃ st', drawRowsFrom startX startY iReg row count st = some st' := by
  intro count
  induction count with
  | zero => intro row st _; exact ⟨st, rfl⟩
  | succ cnt ih =>
    intro row st hle
    unfold drawRowsFrom
    have h4 : iReg + row < 4096 := by omega
    rw [show memRead st (iReg + row) = some (st.memory (iReg + row)) from by
      unfold memRead; rw [if_pos h4]]
    exact ih (row + 1) _ (by omega)

/-! ## C4: draw start wrapping and pixel clipping -/

/-- Inside the draw, the `v[0xF] = 0` reset leaves other registers
readable. -/
theorem upd15_ne (v : Nat → Nat) (x : Nat) (hx : x ≠ 15) :
    upd v 15 0 x = v x := by
  simp [upd, hx]

/-- A successful `Dxyn` draw leaves alone every in-bounds framebuffer cell
outside the rectangle spanned by the wrapped start corner
`(Vx mod 64, Vy mod 32)` and the sprite extent `8 × n`; in particular no
clipped column or row wraps to the opposite edge. -/
theorem drawOp_buf_frame (x y n : Nat) (st s : VM) (hx : x ≠ 15)
    (hy : y ≠ 15) (hd : drawOp x y n st = some s) (cx cy : Nat)
    (hcx : cx < 64) (hcy : cy < 32)
    (hout : ¬(st.v x % 64 ≤ cx ∧ cx < st.v x % 64 + 8 ∧
      st.v y % 32 ≤ cy ∧ cy < st.v y % 32 + n)) :
    s.displayBuffer (cx + cy * 64) = st.displayBuffer (cx + cy * 64) := by
  unfold drawOp at hd
  rw [upd15_ne st.v x hx, upd15_ne st.v y hy] at hd
  rcases hdr : drawRowsFrom (st.v x % 64) (st.v y % 32) st.i 0 n
      { st with v := upd st.v 15 0 } with _ | s2
  · rw [hdr] at hd; cases hd
  · rw [hdr] at hd
    have hs : s = { s2 with drawFlag := true } := (Option.some.inj hd).symm
    subst hs
    show s2.displayBuffer (cx + cy * 64) = st.displayBuffer (cx + cy * 64)
    rw [drawRowsFrom_buf _ _ _ n 0 _ s2 _ hdr ?_]
    intro r c h1 h2 h3 h4 h5 _
    omega

/-- C4: a `Dxyn` step (with `x`, `y` not the flag register, so "`Vx`" is
unambiguous) that completes leaves every in-bounds cell outside the
footprint `[Vx mod 64, Vx mod 64 + 8) × [Vy mod 32, Vy mod 32 + n)`
unchanged: the start corner wraps, and clipped sprite pixels are skipped,
never wrapped to the opposite edge. -/
theorem c4_draw_clipping (rand : Nat) (st : VM) (op : Nat)
    (hf : fetch st = some op) (hD : op &&& 0xF000 = 0xD000)
    (hx : opX op ≠ 15) (hy : opY op ≠ 15)
    (hs : (execute_cycle rand st).isSome = true)
    (cx cy : Nat) (hcx : cx < 64) (hcy : cy < 32)
    (hout : ¬(st.v (opX op) % 64 ≤ cx ∧ cx < st.v (opX op) % 64 + 8 ∧
      st.v (opY op) % 32 ≤ cy ∧ cy < st.v (opY op) % 32 + opN op)) :
    Option.map (fun s => s.displayBuffer (cx + cy * 64))
        (execute_cycle rand st) =
      some (st.displayBuffer (cx + cy * 64)) := by
  have hcyc : execute_cycle rand st =
      drawOp (opX op) (opY op) (opN op) { st with pc := st.pc + 2 } := by
    simp only [execute_cycle, hf, execOp, hD]
    norm_num
  rw [hcyc] at hs ⊢
  rcases hd : drawOp (opX op) (opY op) (opN op) { st with pc := st.pc + 2 }
    with _ | s
  · rw [hd] at hs; simp at hs
  · have hfr := drawOp_buf_frame (opX op) (opY op) (opN op)
      { st with pc := st.pc + 2 } s hx hy hd cx cy hcx hcy hout
    simp only [Option.map_some']
    exact congrArg some hfr

/-- C4 witness: drawing an 8-pixel-wide sprite starting at x = 60 leaves
column 0 (cell `(0,0)`) untouched — the clipped columns 64..67 do not
wrap around to columns 0..3. -/
theorem c4_witness :
    fetch c4vm = some 0xD011 ∧ (execute_cycle 0 c4vm).isSome = true ∧
    Option.map (fun s => s.displayBuffer (0 + 0 * 64)) (execute_cycle 0 c4vm) =
      some (c4vm.displayBuffer (0 + 0 * 64)) :=
  ⟨rfl, rfl, c4_draw_clipping 0 c4vm 0xD011 rfl (by decide) (by decide)
    (by decide) rfl 0 0 (by decide) (by decide) (by decide)⟩

/-! ## C5: double draw -/

/-- Full characterisation of a `Dxyn` draw whose sprite bytes are all in
range (`x`, `y` not the flag register): it succeeds, touches neither
memory nor `I` nor the other registers, reports `VF = 0` exactly when no
visible set sprite bit lands on a lit cell and `VF = 1` when one does,
XORs each visible set bit into its own cell, and leaves every other cell
alone. -/
theorem drawOp_spec (x y n : Nat) (st : VM) (hx : x ≠ 15) (hy : y ≠ 15)
    (hn : st.i + n ≤ 4096) :
    ∃ s2, drawOp x y n st = some s2 ∧
      s2.memory = st.memory ∧ s2.i = st.i ∧
      (∀ j, j ≠ 15 → s2.v j = st.v j) ∧
      ((∀ r c, r < n → st.v y % 32 + r < 32 → c < 8 →
          st.v x % 64 + c < 64 →
          st.memory (st.i + r) &&& (0x80 >>> c) ≠ 0 →
          st.displayBuffer (st.v x % 64 + c + (st.v y % 32 + r) * 64) ≠ 1) →
        s2.v 15 = 0) ∧
      (∀ r c, r < n → st.v y % 32 + r < 32 → c < 8 → st.v x % 64 + c < 64 →
        st.memory (st.i + r) &&& (0x80 >>> c) ≠ 0 →
        st.displayBuffer (st.v x % 64 + c + (st.v y % 32 + r) * 64) = 1 →
        s2.v 15 = 1) ∧
      (∀ r c, r < n → st.v y % 32 + r < 32 → c < 8 → st.v x % 64 + c < 64 →
        st.memory (st.i + r) &&& (0x80 >>> c) ≠ 0 →
        s2.displayBuffer (st.v x % 64 + c + (st.v y % 32 + r) * 64) =
          st.displayBuffer (st.v x % 64 + c + (st.v y % 32 + r) * 64) ^^^ 1) ∧
      (∀ a, (∀ r c, r < n → st.v y % 32 + r < 32 → c < 8 →
          st.v x % 64 + c < 64 →
          st.memory (st.i + r) &&& (0x80 >>> c) ≠ 0 →
          a ≠ st.v x % 64 + c + (st.v y % 32 + r) * 64) →
        s2.displayBuffer a = st.displayBuffer a) := by
  obtain ⟨s1, hdr⟩ := drawRowsFrom_some (st.v x % 64) (st.v y % 32) st.i n 0
    { st with v := upd st.v 15 0 } (by omega)
  refine ⟨{ s1 with drawFlag := true }, ?_, ?_, ?_, ?_, ?_, ?_, ?_, ?_⟩
  · unfold drawOp
    rw [upd15_ne st.v x hx, upd15_ne st.v y hy, hdr]
  · show s1.memory = st.memory
    exact drawRowsFrom_memory (st.v x % 64) (st.v y % 32) st.i n 0
      { st with v := upd st.v 15 0 } s1 hdr
  · show s1.i = st.i
    exact drawRowsFrom_i (st.v x % 64) (st.v y % 32) st.i n 0
      { st with v := upd st.v 15 0 } s1 hdr
  · intro j hj
    show s1.v j = st.v j
    rw [drawRowsFrom_v (st.v x % 64) (st.v y % 32) st.i n 0
      { st with v := upd st.v 15 0 } s1 hdr j hj]
    exact upd15_ne st.v j hj
  · intro hclear
    show s1.v 15 = 0
    have hcl := drawRowsFrom_v_clear (st.v x % 64) (st.v y % 32) st.i n 0
      { st with v := upd st.v 15 0 } s1 hdr
      (fun r c h1 h2 h3 h4 h5 hb => hclear r c (by omega) h3 h4 h5 hb) 15
    exact hcl.trans rfl
  · intro r c h1 h2 h3 h4 h5 hlit
    show s1.v 15 = 1
    exact drawRowsFrom_v15_hit (st.v x % 64) (st.v y % 32) st.i n 0
      { st with v := upd st.v 15 0 } s1 hdr r c (by omega) (by omega)
      h2 h3 h4 h5 hlit
  · intro r c h1 h2 h3 h4 h5
    show s1.displayBuffer _ = _
    exact drawRowsFrom_toggle (st.v x % 64) (st.v y % 32) st.i n 0
      { st with v := upd st.v 15 0 } s1 hdr r c (by omega) (by omega)
      h2 h3 h4 h5
  · intro a ha
    show s1.displayBuffer a = st.displayBuffer a
    exact drawRowsFrom_buf (st.v x % 64) (st.v y % 32) st.i n 0
      { st with v := upd st.v 15 0 } s1 a hdr
      fun r c h1 h2 h3 h4 h5 hb => ha r c (by omega) h3 h4 h5 hb

/-- C5 counterexample: the sprite byte `0x01` is non-empty, but drawn at
start x = 60 its only set pixel (column 7, i.e. x = 67) is clipped, so
the second identical draw still reports `VF = 0`, not the claimed
`VF = 1`. -/
theorem c5_counterexample :
    c5vmC.memory 0x300 = 0x01 ∧ (0x01 : Nat) ≠ 0 ∧
    Option.map (fun s => s.v 15)
      (Option.bind (drawOp 0 1 1 c5vmC) (fun s => drawOp 0 1 1 s)) =
      some 0 ∧ (0 : Nat) ≠ 1 :=
  ⟨rfl, by decide, rfl, by decide⟩

/-- C5 amended: for a draw (`x`, `y` not the flag register, so the
registers feeding the start corner are unchanged between draws) whose
sprite bytes are in range, whose footprint is blank, and which has at
least one set sprite bit that survives clipping, the first draw yields
`VF = 0`, the second identical draw yields `VF = 1`, and the second draw
returns the whole framebuffer — in particular every affected pixel — to
its original (blank) state. -/
theorem c5_double_draw (st : VM) (x y n : Nat) (hx : x ≠ 15) (hy : y ≠ 15)
    (hn : st.i + n ≤ 4096)
    (hblank : ∀ r c, r < n → c < 8 → st.v y % 32 + r < 32 →
      st.v x % 64 + c < 64 →
      st.displayBuffer (st.v x % 64 + c + (st.v y % 32 + r) * 64) = 0)
    (r0 c0 : Nat) (hr0 : r0 < n) (hc0 : c0 < 8)
    (hry : st.v y % 32 + r0 < 32) (hrx : st.v x % 64 + c0 < 64)
    (hbit : st.memory (st.i + r0) &&& (0x80 >>> c0) ≠ 0) :
    ∃ s1 s2, drawOp x y n st = some s1 ∧ s1.v 15 = 0 ∧
      drawOp x y n s1 = some s2 ∧ s2.v 15 = 1 ∧
      (∀ a, s2.displayBuffer a = st.displayBuffer a) ∧
      (∀ r c, r < n → c < 8 → st.v y % 32 + r < 32 →
        st.v x % 64 + c < 64 →
        st.memory (st.i + r) &&& (0x80 >>> c) ≠ 0 →
        s2.displayBuffer (st.v x % 64 + c + (st.v y % 32 + r) * 64) = 0) := by
  obtain ⟨s1, hd1, hm1, hi1, hv1, hvc1, _, htog1, hfr1⟩ :=
    drawOp_spec x y n st hx hy hn
  have hs1v15 : s1.v 15 = 0 := by
    refine hvc1 fun r c h1 h2 h3 h4 _ => ?_
    rw [hblank r c h1 h3 h2 h4]
    omega
  obtain ⟨s2, hd2, hm2, hi2, hv2, hvc2, hvh2, htog2, hfr2⟩ :=
    drawOp_spec x y n s1 hx hy (by rw [hi1]; exact hn)
  rw [hv1 x hx, hv1 y hy, hi1, hm1] at hvh2 htog2 hfr2
  have hlit1 : s1.displayBuffer
      (st.v x % 64 + c0 + (st.v y % 32 + r0) * 64) = 1 := by
    rw [htog1 r0 c0 hr0 hry hc0 hrx hbit, hblank r0 c0 hr0 hc0 hry hrx]
    decide
  have hs2v15 : s2.v 15 = 1 :=
    hvh2 r0 c0 hr0 hry hc0 hrx hbit hlit1
  have hrestore : ∀ a, s2.displayBuffer a = st.displayBuffer a := by
    intro a
    by_cases hcell : ∃ r c, r < n ∧ st.v y % 32 + r < 32 ∧ c < 8 ∧
        st.v x % 64 + c < 64 ∧ st.memory (st.i + r) &&& (0x80 >>> c) ≠ 0 ∧
        a = st.v x % 64 + c + (st.v y % 32 + r) * 64
    · obtain ⟨r, c, h1, h2, h3, h4, h5, rfl⟩ := hcell
      rw [htog2 r c h1 h2 h3 h4 h5, htog1 r c h1 h2 h3 h4 h5,
        Nat.xor_assoc, Nat.xor_self, Nat.xor_zero]
    · have hne : ∀ r c, r < n → st.v y % 32 + r < 32 → c < 8 →
          st.v x % 64 + c < 64 →
          st.memory (st.i + r) &&& (0x80 >>> c) ≠ 0 →
          a ≠ st.v x % 64 + c + (st.v y % 32 + r) * 64 :=
        fun r c h1 h2 h3 h4 h5 heq => hcell ⟨r, c, h1, h2, h3, h4, h5, heq⟩
      rw [hfr2 a hne, hfr1 a hne]
  refine ⟨s1, s2, hd1, hs1v15, hd2, hs2v15, hrestore, ?_⟩
  intro r c h1 h2 h3 h4 h5
  rw [hrestore, hblank r c h1 h2 h3 h4]

/-- C5 witness: a one-row sprite `0x80` drawn at the origin of a blank
screen satisfies the amended statement. -/
theorem c5_witness :
    c5vmW.i + 1 ≤ 4096 ∧
    c5vmW.memory (c5vmW.i + 0) &&& (0x80 >>> 0) ≠ 0 ∧
    (∃ s1 s2, drawOp 0 1 1 c5vmW = some s1 ∧ s1.v 15 = 0 ∧
      drawOp 0 1 1 s1 = some s2 ∧ s2.v 15 = 1 ∧
      (∀ a, s2.displayBuffer a = c5vmW.displayBuffer a) ∧
      (∀ r c, r < 1 → c < 8 → c5vmW.v 1 % 32 + r < 32 →
        c5vmW.v 0 % 64 + c < 64 →
        c5vmW.memory (c5vmW.i + r) &&& (0x80 >>> c) ≠ 0 →
        s2.displayBuffer
          (c5vmW.v 0 % 64 + c + (c5vmW.v 1 % 32 + r) * 64) = 0)) :=
  ⟨by decide, by decide,
    c5_double_draw c5vmW 0 1 1 (by decide) (by decide) (by decide)
      (fun r c _ _ _ _ => rfl) 0 0 (by decide) (by decide) (by decide)
      (by decide) (by decide)⟩

end Chip8
